import Mathlib

/-!
# Verification of `risk_assessment.py`

A shallow embedding of the core pipeline of the repository's
`risk_assessment.py` module, together with theorems settling the frozen
claims about its specification.

Modelling conventions:

* Calendar dates are integers (days since an arbitrary epoch); the source
  works with `pandas` daily timestamps at midnight, so a date is exactly an
  integer number of days.
* A raw series (the provider's `Time Series (Daily)` payload, date mapped
  to the parsed `4. close` price) is a `List (ℤ × ℚ)` in provider order.
* Prices are rationals: the source parses decimal strings into floats; all
  alignment logic only moves prices around, so exact arithmetic is faithful
  there.  The growth computation is genuinely real-valued (`exp`/`log`), so
  it is embedded over `ℝ`, with an explicit IEEE-style scalar type `PF`
  mirroring the numpy float semantics (infinities and NaN instead of
  exceptions on division by zero).
* A `pd.Timedelta` is modelled by its length in days: an integer for the
  pair aligner (whose daily resample grid quantizes to days), a rational for the
  growth calculator (which only uses `total_seconds()`, i.e. `86400 * days`).
-/

/-- IEEE-754-style scalar as produced by the numpy/pandas float pipeline:
a finite real number, one of the two infinities, or NaN.  The source never
guards its arithmetic, so division by zero, `np.log` of non-positive
numbers, etc. produce these values rather than raising. -/
inductive PF where
  | fin : ℝ → PF
  | pinf : PF
  | ninf : PF
  | nan : PF

/-- numpy division on scalars: finite division when the denominator is
non-zero, signed infinities / NaN on division by zero, following IEEE. -/
noncomputable def pdiv : PF → PF → PF
  | PF.fin a, PF.fin b =>
      if b = 0 then
        (if a = 0 then PF.nan else if 0 < a then PF.pinf else PF.ninf)
      else PF.fin (a / b)
  | PF.fin _, PF.pinf => PF.fin 0
  | PF.fin _, PF.ninf => PF.fin 0
  | PF.pinf, PF.fin b => if 0 ≤ b then PF.pinf else PF.ninf
  | PF.ninf, PF.fin b => if 0 ≤ b then PF.ninf else PF.pinf
  | PF.pinf, PF.pinf => PF.nan
  | PF.pinf, PF.ninf => PF.nan
  | PF.ninf, PF.pinf => PF.nan
  | PF.ninf, PF.ninf => PF.nan
  | PF.nan, _ => PF.nan
  | _, PF.nan => PF.nan

/-- The numpy `log` on scalars: NaN on negative input, `-inf` at zero. -/
noncomputable def plog : PF → PF
  | PF.fin a => if a < 0 then PF.nan else if a = 0 then PF.ninf else PF.fin (Real.log a)
  | PF.pinf => PF.pinf
  | PF.ninf => PF.nan
  | PF.nan => PF.nan

/-- The numpy `exp` on scalars. -/
noncomputable def pexp : PF → PF
  | PF.fin a => PF.fin (Real.exp a)
  | PF.pinf => PF.pinf
  | PF.ninf => PF.fin 0
  | PF.nan => PF.nan

/-- numpy subtraction on scalars. -/
noncomputable def psub : PF → PF → PF
  | PF.fin a, PF.fin b => PF.fin (a - b)
  | PF.pinf, PF.fin _ => PF.pinf
  | PF.ninf, PF.fin _ => PF.ninf
  | PF.fin _, PF.pinf => PF.ninf
  | PF.fin _, PF.ninf => PF.pinf
  | PF.pinf, PF.pinf => PF.nan
  | PF.pinf, PF.ninf => PF.pinf
  | PF.ninf, PF.pinf => PF.ninf
  | PF.ninf, PF.ninf => PF.nan
  | PF.nan, _ => PF.nan
  | _, PF.nan => PF.nan

/-- The dataframe produced by `get_pairwise_values` and consumed (and
mutated) by `calculate_risk_histogram`: the `day` index, the two merge
columns, and any further columns added by later assignments
(the assignment of the relative-growth column etc.). -/
structure PairsDF where
  days : List ℤ
  value_original : List ℚ
  value_after_time_delta : List ℚ
  extraCols : List (String × List PF)

/-- Python `df[name] = col`: overwrite the column if it exists, otherwise
append it. -/
def setCol (df : PairsDF) (name : String) (col : List PF) : PairsDF :=
  { df with extraCols :=
      if df.extraCols.any (fun c => c.1 = name) then
        df.extraCols.map (fun c => if c.1 = name then (name, col) else c)
      else
        df.extraCols ++ [(name, col)] }

/-- Earliest date of a (non-empty) frame's index, `np.min(df.index)`;
`0` for an empty frame (the source would raise there, no claim exercises it). -/
def dateLoD : List (ℤ × ℚ) → ℤ
  | [] => 0
  | x :: xs => xs.foldl (fun m p => min m p.1) x.1

/-- Latest date of a (non-empty) frame's index, `np.max(df.index)`. -/
def dateHiD : List (ℤ × ℚ) → ℤ
  | [] => 0
  | x :: xs => xs.foldl (fun m p => max m p.1) x.1

/-- The span `np.max(values_df.index) - np.min(values_df.index)`, in days. -/
def spanOf (l : List (ℤ × ℚ)) : ℤ := dateHiD l - dateLoD l

/-- Strictly-better comparison used to pick the nearest observation to a
target date `d`: smaller absolute distance wins, the earlier date breaking
ties (the deterministic rendering of the resampling library's
nearest-value fill). -/
def better (d : ℤ) (p q : ℤ × ℚ) : Prop :=
  (p.1 - d).natAbs < (q.1 - d).natAbs ∨
    ((p.1 - d).natAbs = (q.1 - d).natAbs ∧ p.1 < q.1)

instance (d : ℤ) (p q : ℤ × ℚ) : Decidable (better d p q) := by
  unfold better; infer_instance

/-- The entry of `x :: xs` nearest in date to `d`. -/
def nearest1 (x : ℤ × ℚ) (xs : List (ℤ × ℚ)) (d : ℤ) : ℤ × ℚ :=
  xs.foldl (fun best p => if better d p best then p else best) x

/-- Embedding of `df.resample("1D").nearest()`: one row per calendar day from the
earliest to the latest date of the index, each day carrying the value of
the nearest observed date. -/
def resample1D (l : List (ℤ × ℚ)) : List (ℤ × ℚ) :=
  match l with
  | [] => []
  | x :: xs =>
      (List.range ((dateHiD (x :: xs) - dateLoD (x :: xs)).toNat + 1)).map
        (fun i : ℕ =>
          (dateLoD (x :: xs) + (i : ℤ), (nearest1 x xs (dateLoD (x :: xs) + (i : ℤ))).2))

/-- Embedding of `unpack_to_daily_df`: reverse the provider-native (newest-first)
order, drop the faulty non-positive prices, and resample daily to the
nearest retained value. -/
def unpack_to_daily_df (data : List (ℤ × ℚ)) : List (ℤ × ℚ) :=
  resample1D ((data.reverse).filter (fun p => 0 < p.2))

/-- Embedding of `get_pairwise_values`: shift the index back by `time_delta`, resample
the shifted frame daily to the nearest value, left-merge it onto the
original frame by day, and drop the rows that found no partner. -/
def get_pairwise_values (values_df : List (ℤ × ℚ)) (time_delta : ℤ) : PairsDF :=
  let offset_values_df :=
    resample1D (values_df.map (fun p => (p.1 - time_delta, p.2)))
  let merged := values_df.filterMap
    (fun p => (List.lookup p.1 offset_values_df).map (fun w => (p.1, p.2, w)))
  { days := merged.map (fun r => r.1)
    value_original := merged.map (fun r => r.2.1)
    value_after_time_delta := merged.map (fun r => r.2.2)
    extraCols := [] }

/-- Embedding of `calculate_risk_histogram`: annualize each pair.  `time_delta` is in
days, so `total_seconds()` is `86400 * time_delta`.  The function both
returns the growth column and assigns the two derived columns onto the
caller's dataframe, exactly as the source does.  All float arithmetic goes
through the IEEE scalar type `PF`. -/
noncomputable def calculate_risk_histogram (pairs_df : PairsDF) (time_delta : ℚ) :
    PairsDF × List PF :=
  let num_years : ℝ := ((time_delta * 86400 : ℚ) : ℝ) / 365 / 24 / 60 / 60
  let relative_growth : List PF :=
    List.zipWith (fun v1 v0 : ℚ => pdiv (PF.fin (v1 : ℝ)) (PF.fin (v0 : ℝ)))
      pairs_df.value_after_time_delta pairs_df.value_original
  let effective_annual_growth : List PF :=
    relative_growth.map (fun r => psub (pexp (pdiv (plog r) (PF.fin num_years))) (PF.fin 1))
  let df1 := setCol pairs_df "relative_growth" relative_growth
  let df2 := setCol df1 "effective_annual_growth" effective_annual_growth
  (df2, effective_annual_growth)

/-- What the provider returned for a symbol: either the parsed series or
an explicit error payload (the response carried the `Error Message` key). -/
inductive ProviderResponse where
  | ok : List (ℤ × ℚ) → ProviderResponse
  | errorPayload : String → ProviderResponse

/-- Embedding of `download_data`: detect the explicit error payload and raise before
writing anything; on success write the cache file and return the data.
The second component records whether the cache file was written. -/
def download_data (resp : ProviderResponse) : Except String (List (ℤ × ℚ)) × Bool :=
  match resp with
  | ProviderResponse.errorPayload msg =>
      (Except.error ("API request returned Error Message: " ++ msg), false)
  | ProviderResponse.ok series => (Except.ok series, true)

/-- Embedding of `get_historical_data` specialised to one symbol: use the cached file
when it exists (and no update was requested), otherwise download. -/
def get_historical_data1 (cached : Option (List (ℤ × ℚ))) (resp : ProviderResponse)
    (update : Bool) : Except String (List (ℤ × ℚ)) × Bool :=
  match cached with
  | some d => if update then download_data resp else (Except.ok d, false)
  | none => download_data resp

/-- Outcome of one orchestration call: whether a cache file was written,
and either the propagated error or the per-offset results (the list of
offsets that triggered the insufficient-span warning, and one histogram
per requested offset, in order). -/
structure OrchOutcome where
  cacheWritten : Bool
  result : Except String (List ℤ × List (List PF))

/-- Embedding of `calculate_risk_histogram_as_function_of_time`: acquire the series
(cache or provider), normalize it once, warn for each requested offset
longer than the covered span, then compute one histogram per offset. -/
noncomputable def calculate_risk_histogram_as_function_of_time
    (cached : Option (List (ℤ × ℚ))) (resp : ProviderResponse)
    (time_deltas : List ℤ) : OrchOutcome :=
  match get_historical_data1 cached resp false with
  | (Except.error e, w) => ⟨w, Except.error e⟩
  | (Except.ok data, w) =>
      let values_df := unpack_to_daily_df data
      let warned := time_deltas.filter (fun td => spanOf values_df < td)
      let histograms := time_deltas.map
        (fun td => (calculate_risk_histogram (get_pairwise_values values_df td) (td : ℚ)).2)
      ⟨w, Except.ok (warned, histograms)⟩

/-- The canonical dense daily series starting at date `a` with `n + 1`
entries, day `a + i` carrying value `g i`.  This is the shape of every
`NormalizedSeries`. -/
def denseDF (a : ℤ) (n : ℕ) (g : ℕ → ℚ) : List (ℤ × ℚ) :=
  (List.range (n + 1)).map (fun i : ℕ => (a + (i : ℤ), g i))

theorem better_irrefl (d : ℤ) (p : ℤ × ℚ) : ¬ better d p p := by
  unfold better; omega

theorem foldl_min_le (xs : List (ℤ × ℚ)) (c : ℤ) :
    xs.foldl (fun m p => min m p.1) c ≤ c ∧
      ∀ p ∈ xs, xs.foldl (fun m p => min m p.1) c ≤ p.1 := by
  induction xs generalizing c with
  | nil => simp
  | cons q qs ih =>
    simp only [List.foldl_cons]
    obtain ⟨h1, h2⟩ := ih (min c q.1)
    refine ⟨le_trans h1 (min_le_left _ _), ?_⟩
    intro p hp
    rcases List.mem_cons.mp hp with rfl | hp
    · exact le_trans h1 (min_le_right _ _)
    · exact h2 p hp

theorem foldl_max_ge (xs : List (ℤ × ℚ)) (c : ℤ) :
    c ≤ xs.foldl (fun m p => max m p.1) c ∧
      ∀ p ∈ xs, p.1 ≤ xs.foldl (fun m p => max m p.1) c := by
  induction xs generalizing c with
  | nil => simp
  | cons q qs ih =>
    simp only [List.foldl_cons]
    obtain ⟨h1, h2⟩ := ih (max c q.1)
    refine ⟨le_trans (le_max_left _ _) h1, ?_⟩
    intro p hp
    rcases List.mem_cons.mp hp with rfl | hp
    · exact le_trans (le_max_right _ _) h1
    · exact h2 p hp

theorem foldl_min_attained (xs : List (ℤ × ℚ)) (c : ℤ) :
    xs.foldl (fun m p => min m p.1) c = c ∨
      ∃ p ∈ xs, xs.foldl (fun m p => min m p.1) c = p.1 := by
  induction xs generalizing c with
  | nil => simp
  | cons q qs ih =>
    simp only [List.foldl_cons]
    rcases ih (min c q.1) with h | ⟨p, hp, h⟩
    · rcases min_cases c q.1 with ⟨hm, _⟩ | ⟨hm, _⟩
      · exact Or.inl (h.trans hm)
      · exact Or.inr ⟨q, List.mem_cons_self _ _, h.trans hm⟩
    · exact Or.inr ⟨p, List.mem_cons_of_mem _ hp, h⟩

theorem foldl_max_attained (xs : List (ℤ × ℚ)) (c : ℤ) :
    xs.foldl (fun m p => max m p.1) c = c ∨
      ∃ p ∈ xs, xs.foldl (fun m p => max m p.1) c = p.1 := by
  induction xs generalizing c with
  | nil => simp
  | cons q qs ih =>
    simp only [List.foldl_cons]
    rcases ih (max c q.1) with h | ⟨p, hp, h⟩
    · rcases max_cases c q.1 with ⟨hm, _⟩ | ⟨hm, _⟩
      · exact Or.inl (h.trans hm)
      · exact Or.inr ⟨q, List.mem_cons_self _ _, h.trans hm⟩
    · exact Or.inr ⟨p, List.mem_cons_of_mem _ hp, h⟩

theorem dateLoD_le (x : ℤ × ℚ) (xs : List (ℤ × ℚ)) :
    ∀ p ∈ x :: xs, dateLoD (x :: xs) ≤ p.1 := by
  intro p hp
  rcases List.mem_cons.mp hp with rfl | hp
  · exact (foldl_min_le xs p.1).1
  · exact (foldl_min_le xs x.1).2 p hp

theorem dateHiD_ge (x : ℤ × ℚ) (xs : List (ℤ × ℚ)) :
    ∀ p ∈ x :: xs, p.1 ≤ dateHiD (x :: xs) := by
  intro p hp
  rcases List.mem_cons.mp hp with rfl | hp
  · exact (foldl_max_ge xs p.1).1
  · exact (foldl_max_ge xs x.1).2 p hp

theorem dateLoD_attained (x : ℤ × ℚ) (xs : List (ℤ × ℚ)) :
    ∃ p ∈ x :: xs, dateLoD (x :: xs) = p.1 := by
  rcases foldl_min_attained xs x.1 with h | ⟨p, hp, h⟩
  · exact ⟨x, List.mem_cons_self _ _, h⟩
  · exact ⟨p, List.mem_cons_of_mem _ hp, h⟩

theorem dateHiD_attained (x : ℤ × ℚ) (xs : List (ℤ × ℚ)) :
    ∃ p ∈ x :: xs, dateHiD (x :: xs) = p.1 := by
  rcases foldl_max_attained xs x.1 with h | ⟨p, hp, h⟩
  · exact ⟨x, List.mem_cons_self _ _, h⟩
  · exact ⟨p, List.mem_cons_of_mem _ hp, h⟩

theorem foldl_best_spec (d : ℤ) (xs : List (ℤ × ℚ)) :
    ∀ b : ℤ × ℚ,
      xs.foldl (fun best p => if better d p best then p else best) b ∈ b :: xs ∧
      ∀ q ∈ b :: xs,
        ¬ better d q (xs.foldl (fun best p => if better d p best then p else best) b) := by
  induction xs with
  | nil =>
    intro b
    refine ⟨List.mem_cons_self _ _, ?_⟩
    intro q hq
    rcases List.mem_cons.mp hq with rfl | hq
    · exact better_irrefl d q
    · cases hq
  | cons p ps ih =>
    intro b
    simp only [List.foldl_cons]
    by_cases hb : better d p b
    · rw [if_pos hb]
      obtain ⟨hm, hq⟩ := ih p
      refine ⟨List.mem_cons_of_mem _ hm, ?_⟩
      intro q hmem
      rcases List.mem_cons.mp hmem with rfl | hmem
      · have h1 := hq p (List.mem_cons_self _ _)
        unfold better at h1 hb ⊢
        omega
      rcases List.mem_cons.mp hmem with rfl | hmem
      · exact hq q (List.mem_cons_self _ _)
      · exact hq q (List.mem_cons_of_mem _ hmem)
    · rw [if_neg hb]
      obtain ⟨hm, hq⟩ := ih b
      constructor
      · rcases List.mem_cons.mp hm with h | h
        · rw [h]; exact List.mem_cons_self _ _
        · exact List.mem_cons_of_mem _ (List.mem_cons_of_mem _ h)
      · intro q hmem
        rcases List.mem_cons.mp hmem with rfl | hmem
        · exact hq q (List.mem_cons_self _ _)
        rcases List.mem_cons.mp hmem with rfl | hmem
        · have h1 := hq b (List.mem_cons_self _ _)
          unfold better at h1 hb ⊢
          omega
        · exact hq q (List.mem_cons_of_mem _ hmem)

theorem nearest1_mem (x : ℤ × ℚ) (xs : List (ℤ × ℚ)) (d : ℤ) :
    nearest1 x xs d ∈ x :: xs :=
  (foldl_best_spec d xs x).1

theorem nearest1_not_better (x : ℤ × ℚ) (xs : List (ℤ × ℚ)) (d : ℤ) :
    ∀ q ∈ x :: xs, ¬ better d q (nearest1 x xs d) :=
  (foldl_best_spec d xs x).2

theorem nearest1_exact (x : ℤ × ℚ) (xs : List (ℤ × ℚ)) (t : ℤ) (v : ℚ)
    (hmem : (t, v) ∈ x :: xs) (hnd : ((x :: xs).map Prod.fst).Nodup) :
    nearest1 x xs t = (t, v) := by
  have h1 := nearest1_not_better x xs t (t, v) hmem
  have h2 : (nearest1 x xs t).1 = t := by
    unfold better at h1
    simp only at h1
    omega
  exact List.inj_on_of_nodup_map hnd (nearest1_mem x xs t) hmem h2

theorem mem_denseDF {a : ℤ} {n : ℕ} {g : ℕ → ℚ} {p : ℤ × ℚ} :
    p ∈ denseDF a n g ↔ ∃ i, i ≤ n ∧ p = (a + (i : ℤ), g i) := by
  simp only [denseDF, List.mem_map, List.mem_range, Nat.lt_succ_iff]
  constructor
  · rintro ⟨i, hi, rfl⟩; exact ⟨i, hi, rfl⟩
  · rintro ⟨i, hi, rfl⟩; exact ⟨i, hi, rfl⟩

theorem denseDF_ne_nil (a : ℤ) (n : ℕ) (g : ℕ → ℚ) : denseDF a n g ≠ [] := by
  simp [denseDF, List.range_succ]

theorem nodup_denseDF_fst (a : ℤ) (n : ℕ) (g : ℕ → ℚ) :
    ((denseDF a n g).map Prod.fst).Nodup := by
  have h : (denseDF a n g).map Prod.fst = (List.range (n + 1)).map (fun i : ℕ => a + (i : ℤ)) := by
    simp [denseDF, List.map_map, Function.comp]
  rw [h]
  refine (List.nodup_range (n + 1)).map ?_
  intro i j hij
  dsimp only at hij
  omega

theorem resample1D_denseSet (l : List (ℤ × ℚ)) (a : ℤ) (n : ℕ) (g : ℕ → ℚ)
    (hne : l ≠ [])
    (hmem : ∀ p, p ∈ l ↔ ∃ i, i ≤ n ∧ p = (a + (i : ℤ), g i))
    (hnd : (l.map Prod.fst).Nodup) :
    resample1D l = denseDF a n g := by
  match l, hne with
  | x :: xs, _ =>
    have hlo : dateLoD (x :: xs) = a := by
      have hle : dateLoD (x :: xs) ≤ a := by
        have hm : ((a + (0 : ℤ)), g 0) ∈ x :: xs := by
          rw [hmem]; exact ⟨0, Nat.zero_le _, by simp⟩
        have := dateLoD_le x xs _ hm
        simpa using this
      have hge : a ≤ dateLoD (x :: xs) := by
        obtain ⟨p, hp, hpe⟩ := dateLoD_attained x xs
        obtain ⟨i, _, rfl⟩ := (hmem p).mp hp
        rw [hpe]; omega
      omega
    have hhi : dateHiD (x :: xs) = a + n := by
      have hge : a + (n : ℤ) ≤ dateHiD (x :: xs) := by
        have hm : ((a + (n : ℤ)), g n) ∈ x :: xs := by
          rw [hmem]; exact ⟨n, le_refl _, rfl⟩
        exact dateHiD_ge x xs _ hm
      have hle : dateHiD (x :: xs) ≤ a + n := by
        obtain ⟨p, hp, hpe⟩ := dateHiD_attained x xs
        obtain ⟨i, hi, rfl⟩ := (hmem p).mp hp
        rw [hpe]; simp only
        omega
      omega
    have hcnt : (dateHiD (x :: xs) - dateLoD (x :: xs)).toNat + 1 = n + 1 := by
      rw [hlo, hhi]; omega
    simp only [resample1D]
    rw [hcnt]
    simp only [hlo]
    unfold denseDF
    refine List.map_congr_left ?_
    intro i hi
    rw [List.mem_range, Nat.lt_succ_iff] at hi
    have hm : ((a + (i : ℤ)), g i) ∈ x :: xs := by
      rw [hmem]; exact ⟨i, hi, rfl⟩
    rw [nearest1_exact x xs (a + (i : ℤ)) (g i) hm hnd]

theorem resample1D_dense (a : ℤ) (n : ℕ) (g : ℕ → ℚ) :
    resample1D (denseDF a n g) = denseDF a n g :=
  resample1D_denseSet (denseDF a n g) a n g (denseDF_ne_nil a n g)
    (fun _ => mem_denseDF) (nodup_denseDF_fst a n g)

theorem unpack_dense (a : ℤ) (n : ℕ) (g : ℕ → ℚ) (hpos : ∀ i, i ≤ n → 0 < g i) :
    unpack_to_daily_df (denseDF a n g) = denseDF a n g := by
  unfold unpack_to_daily_df
  have hfil : ((denseDF a n g).reverse).filter (fun p => 0 < p.2) = (denseDF a n g).reverse := by
    refine List.filter_eq_self.mpr ?_
    intro p hp
    rw [List.mem_reverse] at hp
    obtain ⟨i, hi, rfl⟩ := mem_denseDF.mp hp
    simpa using hpos i hi
  rw [hfil]
  refine resample1D_denseSet _ a n g ?_ ?_ ?_
  · simp [denseDF, List.range_succ]
  · intro p
    rw [List.mem_reverse]
    exact mem_denseDF
  · rw [List.map_reverse]
    exact (List.nodup_reverse).mpr (nodup_denseDF_fst a n g)

theorem denseDF_cons (c : ℤ) (n : ℕ) (g : ℕ → ℚ) :
    denseDF c (n + 1) g = (c, g 0) :: denseDF (c + 1) n (fun j => g (j + 1)) := by
  unfold denseDF
  rw [List.range_succ_eq_map]
  simp only [List.map_cons, List.map_map]
  congr 1
  · simp
  · refine List.map_congr_left ?_
    intro i _
    simp only [Function.comp_apply, Nat.succ_eq_add_one]
    have h1 : c + ((i + 1 : ℕ) : ℤ) = c + 1 + (i : ℤ) := by push_cast; ring
    rw [Prod.mk.injEq]
    exact ⟨h1, rfl⟩

theorem lookup_denseDF (n : ℕ) : ∀ (c : ℤ) (g : ℕ → ℚ) (d : ℤ),
    List.lookup d (denseDF c n g) =
      if c ≤ d ∧ d ≤ c + (n : ℤ) then some (g (d - c).toNat) else none := by
  induction n with
  | zero =>
    intro c g d
    have h0 : denseDF c 0 g = [(c, g 0)] := by
      have hr : List.range 1 = [0] := rfl
      simp [denseDF, hr]
    rw [h0]
    rcases eq_or_ne d c with rfl | hne
    · have ht : (d - d).toNat = 0 := by omega
      simp [List.lookup, ht]
    · have hbe : (d == c) = false := beq_eq_false_iff_ne.mpr hne
      have hc : ¬ (c ≤ d ∧ d ≤ c + ((0 : ℕ) : ℤ)) := by
        push_cast; omega
      simp only [List.lookup, hbe, if_neg hc]
  | succ m ih =>
    intro c g d
    rw [denseDF_cons]
    rcases eq_or_ne d c with rfl | hne
    · have ht : (d - d).toNat = 0 := by omega
      simp [List.lookup, ht]
      omega
    · have hbe : (d == c) = false := beq_eq_false_iff_ne.mpr hne
      have hstep : List.lookup d ((c, g 0) :: denseDF (c + 1) m (fun j => g (j + 1)))
          = List.lookup d (denseDF (c + 1) m (fun j => g (j + 1))) := by
        simp only [List.lookup, hbe]
      rw [hstep, ih]
      by_cases h1 : c + 1 ≤ d ∧ d ≤ c + 1 + (m : ℤ)
      · have h2 : c ≤ d ∧ d ≤ c + ((m + 1 : ℕ) : ℤ) := by
          push_cast; omega
        rw [if_pos h1, if_pos h2]
        show some (g ((d - (c + 1)).toNat + 1)) = some (g ((d - c).toNat))
        have harg : (d - (c + 1)).toNat + 1 = (d - c).toNat := by omega
        rw [harg]
      · have h2 : ¬ (c ≤ d ∧ d ≤ c + ((m + 1 : ℕ) : ℤ)) := by
          push_cast at h1 ⊢; omega
        rw [if_neg h1, if_neg h2]

theorem filterMap_range_if {α : Type} (F : ℕ → α) (N M : ℕ) :
    (List.range N).filterMap (fun i => if i < M then some (F i) else none)
      = (List.range (min M N)).map F := by
  induction N with
  | zero => simp
  | succ N ih =>
    rw [List.range_succ, List.filterMap_append]
    by_cases h : N < M
    · have h1 : min M (N + 1) = N + 1 := by omega
      have h2 : min M N = N := by omega
      rw [ih, h1, h2, List.range_succ, List.map_append]
      simp [h]
    · have h1 : min M (N + 1) = M := by omega
      have h2 : min M N = M := by omega
      rw [ih, h1, h2]
      simp [h]

theorem get_pairwise_values_dense (a : ℤ) (n : ℕ) (g : ℕ → ℚ) (k : ℕ) :
    get_pairwise_values (denseDF a n g) (k : ℤ) =
      { days := (List.range (n + 1 - k)).map (fun i : ℕ => a + (i : ℤ))
        value_original := (List.range (n + 1 - k)).map (fun i => g i)
        value_after_time_delta := (List.range (n + 1 - k)).map (fun i => g (i + k))
        extraCols := [] } := by
  have hshift : (denseDF a n g).map (fun p => (p.1 - (k : ℤ), p.2))
      = denseDF (a - (k : ℤ)) n g := by
    unfold denseDF
    rw [List.map_map]
    refine List.map_congr_left ?_
    intro i _
    simp only [Function.comp_apply]
    have h1 : a + (i : ℤ) - (k : ℤ) = a - (k : ℤ) + (i : ℤ) := by ring
    rw [Prod.mk.injEq]
    exact ⟨h1, rfl⟩
  have hoff : resample1D ((denseDF a n g).map (fun p => (p.1 - (k : ℤ), p.2)))
      = denseDF (a - (k : ℤ)) n g := by
    rw [hshift]; exact resample1D_dense _ n g
  have hmerge : (denseDF a n g).filterMap
      (fun p => (List.lookup p.1 (denseDF (a - (k : ℤ)) n g)).map (fun w => (p.1, p.2, w)))
      = (List.range (n + 1 - k)).map (fun i : ℕ => ((a + (i : ℤ)), g i, g (i + k))) := by
    have h1 : (denseDF a n g).filterMap
        (fun p => (List.lookup p.1 (denseDF (a - (k : ℤ)) n g)).map (fun w => (p.1, p.2, w)))
        = (List.range (n + 1)).filterMap
            (fun i : ℕ => (List.lookup (a + (i : ℤ)) (denseDF (a - (k : ℤ)) n g)).map
              (fun w => ((a + (i : ℤ)), g i, w))) := by
      show ((List.range (n + 1)).map (fun i : ℕ => (a + (i : ℤ), g i))).filterMap _ = _
      rw [List.filterMap_map]
      rfl
    rw [h1]
    have h2 : ∀ i ∈ List.range (n + 1),
        (List.lookup (a + (i : ℤ)) (denseDF (a - (k : ℤ)) n g)).map
            (fun w => ((a + (i : ℤ)), g i, w))
          = if i < n + 1 - k then some ((a + (i : ℤ)), g i, g (i + k)) else none := by
      intro i hi
      rw [List.mem_range] at hi
      rw [lookup_denseDF]
      by_cases hc : a - (k : ℤ) ≤ a + (i : ℤ) ∧ a + (i : ℤ) ≤ a - (k : ℤ) + (n : ℤ)
      · have hik : (a + (i : ℤ) - (a - (k : ℤ))).toNat = i + k := by omega
        have hlt : i < n + 1 - k := by omega
        rw [if_pos hc, if_pos hlt, hik]
        rfl
      · have hge : ¬ (i < n + 1 - k) := by omega
        rw [if_neg hc, if_neg hge]
        rfl
    rw [List.filterMap_congr h2, filterMap_range_if, min_eq_left (by omega)]
  simp only [get_pairwise_values]
  rw [hoff, hmerge]
  simp only [List.map_map]
  rfl

instance : Inhabited PF := ⟨PF.nan⟩

theorem lookup_eq_none_of (l : List (ℤ × ℚ)) (d : ℤ) (h : ∀ q ∈ l, q.1 ≠ d) :
    List.lookup d l = none := by
  induction l with
  | nil => rfl
  | cons q qs ih =>
    obtain ⟨qk, qv⟩ := q
    have hbe : (d == qk) = false := by
      refine beq_eq_false_iff_ne.mpr ?_
      intro he
      exact (h (qk, qv) (List.mem_cons_self _ _)) he.symm
    simp only [List.lookup, hbe]
    exact ih (fun p hp => h p (List.mem_cons_of_mem _ hp))

theorem resample1D_mem_date (x : ℤ × ℚ) (xs : List (ℤ × ℚ)) :
    ∀ q ∈ resample1D (x :: xs), dateLoD (x :: xs) ≤ q.1 ∧ q.1 ≤ dateHiD (x :: xs) := by
  intro q hq
  simp only [resample1D, List.mem_map, List.mem_range] at hq
  obtain ⟨i, hi, rfl⟩ := hq
  have hxlo := dateLoD_le x xs x (List.mem_cons_self _ _)
  have hxhi := dateHiD_ge x xs x (List.mem_cons_self _ _)
  constructor
  · simp only
    omega
  · simp only
    omega

theorem foldl_max_map_sub (xs : List (ℤ × ℚ)) (k : ℤ) : ∀ c : ℤ,
    (xs.map (fun p => (p.1 - k, p.2))).foldl (fun m p => max m p.1) (c - k)
      = xs.foldl (fun m p => max m p.1) c - k := by
  induction xs with
  | nil => intro c; rfl
  | cons q qs ih =>
    intro c
    simp only [List.map_cons, List.foldl_cons]
    rw [max_sub_sub_right c q.1 k]
    exact ih (max c q.1)

theorem dateHiD_map_sub (x : ℤ × ℚ) (xs : List (ℤ × ℚ)) (k : ℤ) :
    dateHiD ((x :: xs).map (fun p => (p.1 - k, p.2))) = dateHiD (x :: xs) - k := by
  show (xs.map (fun p => (p.1 - k, p.2))).foldl (fun m p => max m p.1) (x.1 - k)
      = xs.foldl (fun m p => max m p.1) x.1 - k
  exact foldl_max_map_sub xs k x.1

theorem gpv_empty_of_span (values_df : List (ℤ × ℚ)) (k : ℤ)
    (hk : spanOf values_df < k) :
    get_pairwise_values values_df k = ⟨[], [], [], []⟩ := by
  cases values_df with
  | nil => rfl
  | cons x xs =>
    simp only [get_pairwise_values]
    have hmerged : (x :: xs).filterMap
        (fun p => (List.lookup p.1
            (resample1D ((x :: xs).map (fun p => (p.1 - k, p.2))))).map
          (fun w => (p.1, p.2, w))) = [] := by
      rw [List.filterMap_eq_nil_iff]
      intro p hp
      have hnone : List.lookup p.1
          (resample1D ((x :: xs).map (fun p => (p.1 - k, p.2)))) = none := by
        apply lookup_eq_none_of
        intro q hq
        have hq2 : q ∈ resample1D ((x.1 - k, x.2) :: xs.map (fun p => (p.1 - k, p.2))) := by
          simpa using hq
        have hbnd := resample1D_mem_date (x.1 - k, x.2) (xs.map (fun p => (p.1 - k, p.2))) q hq2
        have hhi : dateHiD ((x.1 - k, x.2) :: xs.map (fun p => (p.1 - k, p.2)))
            = dateHiD (x :: xs) - k := dateHiD_map_sub x xs k
        have hplo := dateLoD_le x xs p hp
        have hspan : dateHiD (x :: xs) - dateLoD (x :: xs) < k := hk
        omega
      rw [hnone]
      rfl
    rw [hmerged]
    rfl

theorem num_years_form (td : ℚ) :
    ((td * 86400 : ℚ) : ℝ) / 365 / 24 / 60 / 60
      = ((td * 86400 : ℚ) : ℝ) / (365 * 24 * 3600) := by
  ring

theorem growth_step_fin (v0 v1 : ℚ) (ny : ℝ) (h0 : 0 < v0) (h1 : 0 < v1) (hny : ny ≠ 0) :
    psub (pexp (pdiv (plog (pdiv (PF.fin ((v1 : ℝ))) (PF.fin ((v0 : ℝ))))) (PF.fin ny)))
        (PF.fin 1)
      = PF.fin (Real.exp (Real.log ((v1 : ℝ) / (v0 : ℝ)) / ny) - 1) := by
  have hv0 : (0 : ℝ) < (v0 : ℝ) := by exact_mod_cast h0
  have hv1 : (0 : ℝ) < (v1 : ℝ) := by exact_mod_cast h1
  have hd : (0 : ℝ) < (v1 : ℝ) / (v0 : ℝ) := div_pos hv1 hv0
  simp only [pdiv, plog, pexp, psub, if_neg hv0.ne', if_neg (not_lt.mpr hd.le),
    if_neg hd.ne', if_neg hny]

theorem pdiv_fin_zero (a : ℝ) :
    pdiv (PF.fin a) (PF.fin 0)
      = if a = 0 then PF.nan else if 0 < a then PF.pinf else PF.ninf := by
  simp [pdiv]

theorem growth_step_zero (v0 v1 : ℚ) (h0 : 0 < v0) (h1 : 0 < v1) :
    psub (pexp (pdiv (plog (pdiv (PF.fin ((v1 : ℝ))) (PF.fin ((v0 : ℝ))))) (PF.fin 0)))
        (PF.fin 1)
      = (if v0 < v1 then PF.pinf else if v1 = v0 then PF.nan else PF.fin (-1)) := by
  have hv0 : (0 : ℝ) < (v0 : ℝ) := by exact_mod_cast h0
  have hv1 : (0 : ℝ) < (v1 : ℝ) := by exact_mod_cast h1
  have hd : (0 : ℝ) < (v1 : ℝ) / (v0 : ℝ) := div_pos hv1 hv0
  have hdiv : pdiv (PF.fin ((v1 : ℝ))) (PF.fin ((v0 : ℝ))) = PF.fin ((v1 : ℝ) / (v0 : ℝ)) := by
    simp only [pdiv, if_neg hv0.ne']
  have hlog : plog (PF.fin ((v1 : ℝ) / (v0 : ℝ)))
      = PF.fin (Real.log ((v1 : ℝ) / (v0 : ℝ))) := by
    simp only [plog, if_neg (not_lt.mpr hd.le), if_neg hd.ne']
  rw [hdiv, hlog]
  rcases lt_trichotomy v0 v1 with hlt | heq | hgt
  · have hL : 0 < Real.log ((v1 : ℝ) / (v0 : ℝ)) := by
      refine Real.log_pos ?_
      rw [one_lt_div hv0]
      exact_mod_cast hlt
    rw [if_pos hlt, pdiv_fin_zero, if_neg hL.ne', if_pos hL]
    simp [pexp, psub]
  · have hnlt : ¬ v0 < v1 := by rw [heq]; exact lt_irrefl v1
    have h11 : (v1 : ℝ) / (v0 : ℝ) = 1 := by rw [heq]; exact div_self hv1.ne'
    have hL : Real.log ((v1 : ℝ) / (v0 : ℝ)) = 0 := by rw [h11, Real.log_one]
    rw [if_neg hnlt, if_pos heq.symm, hL, pdiv_fin_zero, if_pos rfl]
    simp [pexp, psub]
  · have hnlt : ¬ v0 < v1 := not_lt.mpr hgt.le
    have hne : v1 ≠ v0 := ne_of_lt hgt
    have hlt1 : (v1 : ℝ) / (v0 : ℝ) < 1 := by
      rw [div_lt_one hv0]
      exact_mod_cast hgt
    have hL : Real.log ((v1 : ℝ) / (v0 : ℝ)) < 0 := Real.log_neg hd hlt1
    rw [if_neg hnlt, if_neg hne, pdiv_fin_zero, if_neg hL.ne, if_neg (not_lt.mpr hL.le)]
    simp [pexp, psub]

theorem getElemD_map {α β : Type} [Inhabited α] [Inhabited β] (F : α → β) (l : List α)
    (j : ℕ) (hj : j < l.length) : (l.map F)[j]! = F (l[j]!) := by
  rw [getElem!_pos (l.map F) j (by simpa using hj), getElem!_pos l j hj]
  exact List.getElem_map _

theorem getElemD_range_map {α : Type} [Inhabited α] (m : ℕ) (F : ℕ → α) (j : ℕ)
    (hj : j < m) : ((List.range m).map F)[j]! = F j := by
  rw [getElemD_map F (List.range m) j (by simpa using hj)]
  congr 1
  rw [getElem!_pos (List.range m) j (by simpa using hj)]
  exact List.getElem_range _ _

theorem getElemD_zipWith {α β γ : Type} [Inhabited α] [Inhabited β] [Inhabited γ]
    (f : α → β → γ) (l1 : List α) (l2 : List β) (j : ℕ)
    (h1 : j < l1.length) (h2 : j < l2.length) :
    (List.zipWith f l1 l2)[j]! = f (l1[j]!) (l2[j]!) := by
  rw [getElem!_pos (List.zipWith f l1 l2) j (by rw [List.length_zipWith]; omega),
      getElem!_pos l1 j h1, getElem!_pos l2 j h2]
  exact List.getElem_zipWith

theorem calc_rh_snd (df : PairsDF) (td : ℚ) :
    (calculate_risk_histogram df td).2 =
      (List.zipWith (fun v1 v0 : ℚ => pdiv (PF.fin ((v1 : ℝ))) (PF.fin ((v0 : ℝ))))
          df.value_after_time_delta df.value_original).map
        (fun r => psub (pexp (pdiv (plog r)
          (PF.fin (((td * 86400 : ℚ) : ℝ) / 365 / 24 / 60 / 60)))) (PF.fin 1)) := rfl

theorem num_years_pos (td : ℚ) (htd : 0 < td) :
    (0 : ℝ) < ((td * 86400 : ℚ) : ℝ) / 365 / 24 / 60 / 60 := by
  have h86 : (0 : ℚ) < td * 86400 := mul_pos htd (by norm_num)
  have hc : (0 : ℝ) < ((td * 86400 : ℚ) : ℝ) := by exact_mod_cast h86
  exact div_pos (div_pos (div_pos (div_pos hc (by norm_num)) (by norm_num))
    (by norm_num)) (by norm_num)

/-- Claim C1: For every non-empty sequence of value pairs `(v0, v1)` with
`v0 > 0` and `v1 > 0`, and every positive duration Δ, the Growth Calculator
(`calculate_risk_histogram`) returns a sequence of the same length and order
as the input whose element for the pair `(v0, v1)` equals
`exp (ln (v1 / v0) / years) - 1`, where
`years = Δ_total_seconds / (365 · 24 · 3600)` (Δ is given here in days, so
its total seconds are `Δ · 86400`). -/
theorem C1_growth_formula (df : PairsDF) (td : ℚ)
    (hlen : df.value_after_time_delta.length = df.value_original.length)
    (hne : df.value_original ≠ [])
    (h0 : ∀ v ∈ df.value_original, 0 < v)
    (h1 : ∀ v ∈ df.value_after_time_delta, 0 < v)
    (htd : 0 < td) :
    (calculate_risk_histogram df td).2.length = df.value_original.length ∧
    ∀ j, j < (calculate_risk_histogram df td).2.length →
      (calculate_risk_histogram df td).2[j]! =
        PF.fin (Real.exp (Real.log (((df.value_after_time_delta[j]!) : ℝ) /
            ((df.value_original[j]!) : ℝ)) /
          (((td * 86400 : ℚ) : ℝ) / (365 * 24 * 3600))) - 1) := by
  have hlen2 : (calculate_risk_histogram df td).2.length = df.value_original.length := by
    rw [calc_rh_snd]
    simp [List.length_zipWith, hlen]
  refine ⟨hlen2, ?_⟩
  intro j hj
  rw [hlen2] at hj
  have hjvo : j < df.value_original.length := hj
  have hjva : j < df.value_after_time_delta.length := by omega
  have hmem0 : df.value_original[j]! ∈ df.value_original := by
    rw [getElem!_pos df.value_original j hjvo]
    exact List.getElem_mem _
  have hmem1 : df.value_after_time_delta[j]! ∈ df.value_after_time_delta := by
    rw [getElem!_pos df.value_after_time_delta j hjva]
    exact List.getElem_mem _
  rw [calc_rh_snd]
  rw [getElemD_map _ _ j (by rw [List.length_zipWith]; omega)]
  rw [getElemD_zipWith _ _ _ j hjva hjvo]
  rw [growth_step_fin (df.value_original[j]!) (df.value_after_time_delta[j]!)
      (((td * 86400 : ℚ) : ℝ) / 365 / 24 / 60 / 60)
      (h0 _ hmem0) (h1 _ hmem1) (num_years_pos td htd).ne']
  rw [num_years_form]

/-- Witness for C1: a single pair `(1, 2)` over Δ = 365 days. -/
theorem C1_growth_formula_witness :
    ((0 : ℚ) < 365 ∧ (∀ v ∈ [(1 : ℚ)], 0 < v) ∧ (∀ v ∈ [(2 : ℚ)], 0 < v)) ∧
    ((calculate_risk_histogram (PairsDF.mk [0] [1] [2] []) 365).2.length
        = (PairsDF.mk [0] [1] [2] []).value_original.length ∧
      ∀ j, j < (calculate_risk_histogram (PairsDF.mk [0] [1] [2] []) 365).2.length →
        (calculate_risk_histogram (PairsDF.mk [0] [1] [2] []) 365).2[j]! =
          PF.fin (Real.exp (Real.log
              ((((PairsDF.mk [0] [1] [2] []).value_after_time_delta[j]!) : ℝ) /
                (((PairsDF.mk [0] [1] [2] []).value_original[j]!) : ℝ)) /
            ((((365 : ℚ) * 86400 : ℚ) : ℝ) / (365 * 24 * 3600))) - 1)) := by
  constructor
  · refine ⟨by norm_num, ?_, ?_⟩
    · intro v hv
      simp only [List.mem_singleton] at hv
      subst hv
      norm_num
    · intro v hv
      simp only [List.mem_singleton] at hv
      subst hv
      norm_num
  · exact C1_growth_formula (PairsDF.mk [0] [1] [2] []) 365 rfl (by simp)
      (by intro v hv; simp only [List.mem_singleton] at hv; subst hv; norm_num)
      (by intro v hv; simp only [List.mem_singleton] at hv; subst hv; norm_num)
      (by norm_num)

/-- Claim C6, counterexample: The claim says that with `years == 0` the Growth
Calculator fails with a DivisionError rather than returning a result.  In the
source the division `np.log(...) / num_years` is numpy/pandas float
arithmetic: dividing by the float `0.0` does not raise, it produces IEEE
infinities/NaN.  At the concrete input `pairs = [(1, 2)]`, Δ = 0, the call
returns the value `[+inf]` — a result, not an error. -/
theorem C6_counterexample :
    (calculate_risk_histogram (PairsDF.mk [0] [1] [2] []) 0).2 = [PF.pinf] := by
  rw [calc_rh_snd]
  simp only [List.zipWith_cons_cons, List.zipWith_nil_right, List.map_cons, List.map_nil]
  have h0ny : (((0 : ℚ) * 86400 : ℚ) : ℝ) / 365 / 24 / 60 / 60 = 0 := by norm_num
  rw [h0ny, growth_step_zero 1 2 (by norm_num) (by norm_num)]
  norm_num

/-- Claim C6, amended: With `years == 0` (a zero-duration Δ) the Growth
Calculator does not raise: per IEEE division-by-zero semantics of the
underlying numpy floats it returns one sample per pair — `+inf` when
`v1 > v0`, `NaN` when `v1 = v0`, and `exp(-inf) - 1 = -1` when `v1 < v0`. -/
theorem C6_zero_duration_no_error (df : PairsDF) (td : ℚ) (htd : td = 0)
    (hlen : df.value_after_time_delta.length = df.value_original.length)
    (hne : df.value_original ≠ [])
    (h0 : ∀ v ∈ df.value_original, 0 < v)
    (h1 : ∀ v ∈ df.value_after_time_delta, 0 < v) :
    (calculate_risk_histogram df td).2.length = df.value_original.length ∧
    ∀ j, j < (calculate_risk_histogram df td).2.length →
      (calculate_risk_histogram df td).2[j]! =
        (if df.value_original[j]! < df.value_after_time_delta[j]! then PF.pinf
         else if df.value_after_time_delta[j]! = df.value_original[j]! then PF.nan
         else PF.fin (-1)) := by
  subst htd
  have hlen2 : (calculate_risk_histogram df 0).2.length = df.value_original.length := by
    rw [calc_rh_snd]
    simp [List.length_zipWith, hlen]
  refine ⟨hlen2, ?_⟩
  intro j hj
  rw [hlen2] at hj
  have hjvo : j < df.value_original.length := hj
  have hjva : j < df.value_after_time_delta.length := by omega
  have hmem0 : df.value_original[j]! ∈ df.value_original := by
    rw [getElem!_pos df.value_original j hjvo]
    exact List.getElem_mem _
  have hmem1 : df.value_after_time_delta[j]! ∈ df.value_after_time_delta := by
    rw [getElem!_pos df.value_after_time_delta j hjva]
    exact List.getElem_mem _
  rw [calc_rh_snd]
  rw [getElemD_map _ _ j (by rw [List.length_zipWith]; omega)]
  rw [getElemD_zipWith _ _ _ j hjva hjvo]
  have h0ny : (((0 : ℚ) * 86400 : ℚ) : ℝ) / 365 / 24 / 60 / 60 = 0 := by norm_num
  rw [h0ny]
  exact growth_step_zero (df.value_original[j]!) (df.value_after_time_delta[j]!)
    (h0 _ hmem0) (h1 _ hmem1)

/-- Witness for the amended C6: the pair `(1, 2)` with Δ = 0. -/
theorem C6_zero_duration_no_error_witness :
    ((0 : ℚ) = 0 ∧ (∀ v ∈ [(1 : ℚ)], 0 < v) ∧ (∀ v ∈ [(2 : ℚ)], 0 < v)) ∧
    ((calculate_risk_histogram (PairsDF.mk [0] [1] [2] []) 0).2.length
        = (PairsDF.mk [0] [1] [2] []).value_original.length ∧
      ∀ j, j < (calculate_risk_histogram (PairsDF.mk [0] [1] [2] []) 0).2.length →
        (calculate_risk_histogram (PairsDF.mk [0] [1] [2] []) 0).2[j]! =
          (if (PairsDF.mk [0] [1] [2] []).value_original[j]!
              < (PairsDF.mk [0] [1] [2] []).value_after_time_delta[j]! then PF.pinf
           else if (PairsDF.mk [0] [1] [2] []).value_after_time_delta[j]!
              = (PairsDF.mk [0] [1] [2] []).value_original[j]! then PF.nan
           else PF.fin (-1))) := by
  constructor
  · refine ⟨rfl, ?_, ?_⟩
    · intro v hv
      simp only [List.mem_singleton] at hv
      subst hv
      norm_num
    · intro v hv
      simp only [List.mem_singleton] at hv
      subst hv
      norm_num
  · exact C6_zero_duration_no_error (PairsDF.mk [0] [1] [2] []) 0 rfl rfl (by simp)
      (by intro v hv; simp only [List.mem_singleton] at hv; subst hv; norm_num)
      (by intro v hv; simp only [List.mem_singleton] at hv; subst hv; norm_num)

/-- Claim C7, counterexample: The claim says the Growth Calculator leaves the
caller's pairs dataframe unchanged — same columns, same values.  The source
assigns the relative-growth and the effective-annual-growth columns
onto `pairs_df`, adding two columns to the
caller-visible frame; even on the empty frame the column set changes. -/
theorem C7_counterexample :
    (calculate_risk_histogram (PairsDF.mk [] [] [] []) 1).1 ≠ PairsDF.mk [] [] [] [] := by
  intro h
  have h2 := congrArg (fun d => d.extraCols.length) h
  simp [calculate_risk_histogram, setCol] at h2

/-- Claim C7, amended: The Growth Calculator leaves the index and the two
value columns of the caller's dataframe unchanged, but it mutates the
caller-visible frame by adding the two derived columns `relative_growth`
and `effective_annual_growth`. -/
theorem C7_frame_amended (df : PairsDF) (td : ℚ) (hext : df.extraCols = []) :
    (calculate_risk_histogram df td).1.days = df.days ∧
    (calculate_risk_histogram df td).1.value_original = df.value_original ∧
    (calculate_risk_histogram df td).1.value_after_time_delta = df.value_after_time_delta ∧
    (calculate_risk_histogram df td).1.extraCols.map Prod.fst =
      ["relative_growth", "effective_annual_growth"] := by
  refine ⟨rfl, rfl, rfl, ?_⟩
  show (setCol (setCol df "relative_growth" _) "effective_annual_growth" _).extraCols.map
      Prod.fst = _
  simp [setCol, hext]

/-- Witness for the amended C7: the empty pairs frame with Δ = 1. -/
theorem C7_frame_amended_witness :
    ((PairsDF.mk [] [] [] []).extraCols = [] ∧
      (calculate_risk_histogram (PairsDF.mk [] [] [] []) 1).1.days = [] ∧
      (calculate_risk_histogram (PairsDF.mk [] [] [] []) 1).1.extraCols.map Prod.fst =
        ["relative_growth", "effective_annual_growth"]) := by
  refine ⟨rfl, ?_, ?_⟩
  · exact (C7_frame_amended (PairsDF.mk [] [] [] []) 1 rfl).1
  · exact (C7_frame_amended (PairsDF.mk [] [] [] []) 1 rfl).2.2.2

/-- Claim C8: A provider response that is an explicit error payload (it carries
the `Error Message` key) makes the orchestration call fail with the distinct
provider-error exception before the payload is written to the cache
(`cacheWritten = false`) and before any normalization is attempted: the
outcome is the propagated error for every list of requested offsets, and no
histogram list is produced. -/
theorem C8_provider_error (msg : String) (tds : List ℤ) :
    calculate_risk_histogram_as_function_of_time none
        (ProviderResponse.errorPayload msg) tds
      = ⟨false, Except.error ("API request returned Error Message: " ++ msg)⟩ := rfl

/-- Claim C9: Normalization is idempotent: on a raw series that is already a
dense, chronological, strictly-positive daily series, `unpack_to_daily_df`
returns the same date-to-price series unchanged (same dates, same values —
indeed the same list). -/
theorem C9_normalization_idempotent (a : ℤ) (n : ℕ) (g : ℕ → ℚ)
    (hpos : ∀ i, i ≤ n → 0 < g i) :
    unpack_to_daily_df (denseDF a n g) = denseDF a n g :=
  unpack_dense a n g hpos

/-- Witness for C9: the two-day constant series at price 1. -/
theorem C9_normalization_idempotent_witness :
    (∀ i, i ≤ 1 → 0 < (fun _ : ℕ => (1 : ℚ)) i) ∧
    unpack_to_daily_df (denseDF 0 1 (fun _ : ℕ => (1 : ℚ)))
      = denseDF 0 1 (fun _ : ℕ => (1 : ℚ)) :=
  ⟨fun _ _ => by norm_num,
   C9_normalization_idempotent 0 1 (fun _ : ℕ => (1 : ℚ)) (fun _ _ => by norm_num)⟩

/-- Claim C10: For a dense daily series over the `n + 1` consecutive days
`a, a+1, …, a+n` and a whole-day offset `k` with `0 < k ≤ n`, the Pair
Aligner returns exactly `n - k + 1` pairs, one for each day `a + i` with
`i ≤ n - k`, and the second value of each pair is exactly the series value
at `t + Δ` (namely `g (i + k)` for the row at day `a + i`). -/
theorem C10_dense_pair_count (a : ℤ) (n : ℕ) (g : ℕ → ℚ) (k : ℕ)
    (hk0 : 0 < k) (hkn : k ≤ n) :
    (get_pairwise_values (denseDF a n g) (k : ℤ)).days.length = n - k + 1 ∧
    (get_pairwise_values (denseDF a n g) (k : ℤ)).days
      = (List.range (n - k + 1)).map (fun i : ℕ => a + (i : ℤ)) ∧
    (get_pairwise_values (denseDF a n g) (k : ℤ)).value_original
      = (List.range (n - k + 1)).map (fun i => g i) ∧
    (get_pairwise_values (denseDF a n g) (k : ℤ)).value_after_time_delta
      = (List.range (n - k + 1)).map (fun i => g (i + k)) := by
  have hM := get_pairwise_values_dense a n g k
  have hnk : n + 1 - k = n - k + 1 := by omega
  rw [hnk] at hM
  rw [hM]
  refine ⟨?_, rfl, rfl, rfl⟩
  simp

/-- Witness for C10: the three-day series `1, 2, 3` with `k = 1`. -/
theorem C10_dense_pair_count_witness :
    (0 < 1 ∧ 1 ≤ 2) ∧
    ((get_pairwise_values (denseDF 0 2 (fun i : ℕ => (i + 1 : ℚ))) ((1 : ℕ) : ℤ)).days.length
        = 2 - 1 + 1 ∧
      (get_pairwise_values (denseDF 0 2 (fun i : ℕ => (i + 1 : ℚ))) ((1 : ℕ) : ℤ)).days
        = (List.range (2 - 1 + 1)).map (fun i : ℕ => 0 + (i : ℤ)) ∧
      (get_pairwise_values (denseDF 0 2 (fun i : ℕ => (i + 1 : ℚ))) ((1 : ℕ) : ℤ)).value_original
        = (List.range (2 - 1 + 1)).map (fun i => ((fun i : ℕ => (i + 1 : ℚ)) i)) ∧
      (get_pairwise_values (denseDF 0 2 (fun i : ℕ => (i + 1 : ℚ)))
          ((1 : ℕ) : ℤ)).value_after_time_delta
        = (List.range (2 - 1 + 1)).map (fun i => ((fun i : ℕ => (i + 1 : ℚ)) (i + 1)))) :=
  ⟨⟨by norm_num, by norm_num⟩,
   C10_dense_pair_count 0 2 (fun i : ℕ => (i + 1 : ℚ)) 1 (by norm_num) (by norm_num)⟩

/-- Claim C5: For a normalized (dense daily) series and a whole-day offset
`k`, every pair the aligner returns uses as its second component the series
value at a date within the 10-day tolerance of `t + Δ` (the match is in
fact exact, distance 0), and every day `t` with no observation within
10 days of `t + Δ` is dropped from the output entirely. -/
theorem C5_pair_tolerance (a : ℤ) (n : ℕ) (g : ℕ → ℚ) (k : ℕ) :
    (∀ j, j < (get_pairwise_values (denseDF a n g) (k : ℤ)).days.length →
      ∃ i, i ≤ n ∧
        (get_pairwise_values (denseDF a n g) (k : ℤ)).value_after_time_delta[j]! = g i ∧
        (((get_pairwise_values (denseDF a n g) (k : ℤ)).days[j]! + (k : ℤ))
            - (a + (i : ℤ))).natAbs ≤ 10) ∧
    (∀ i : ℕ, i ≤ n →
      (∀ i2 : ℕ, i2 ≤ n → 10 < (((a + (i : ℤ)) + (k : ℤ)) - (a + (i2 : ℤ))).natAbs) →
      (a + (i : ℤ)) ∉ (get_pairwise_values (denseDF a n g) (k : ℤ)).days) := by
  have hM := get_pairwise_values_dense a n g k
  constructor
  · intro j hj
    rw [hM] at hj ⊢
    simp only [List.length_map, List.length_range] at hj
    refine ⟨j + k, by omega, ?_, ?_⟩
    · rw [getElemD_range_map _ _ j hj]
    · rw [getElemD_range_map _ _ j hj]
      push_cast
      omega
  · intro i hi hno
    rw [hM]
    intro hmem
    simp only [List.mem_map, List.mem_range] at hmem
    obtain ⟨j, hj, hje⟩ := hmem
    have hij : j = i := by omega
    subst hij
    have hd := hno (j + k) (by omega)
    push_cast at hd
    omega

theorem chain_dense (m : ℕ) (a : ℤ) (v : ℕ → ℚ) :
    List.Chain' (fun p q : ℤ × ℚ => q.1 = p.1 + 1)
      ((List.range m).map (fun i : ℕ => (a + (i : ℤ), v i))) := by
  rw [List.chain'_iff_get]
  intro i hi
  simp only [List.length_map, List.length_range] at hi
  rw [List.get_eq_getElem, List.get_eq_getElem]
  simp only [List.getElem_map, List.getElem_range]
  push_cast
  ring

theorem resample1D_val_mem (l : List (ℤ × ℚ)) (p : ℤ × ℚ) (hp : p ∈ resample1D l) :
    ∃ q ∈ l, q.2 = p.2 := by
  cases l with
  | nil => simp [resample1D] at hp
  | cons x xs =>
    simp only [resample1D, List.mem_map, List.mem_range] at hp
    obtain ⟨i, hi, rfl⟩ := hp
    exact ⟨nearest1 x xs (dateLoD (x :: xs) + (i : ℤ)), nearest1_mem x xs _, rfl⟩

/-- Claim C4: For every raw series with at least one positive-price entry, the
normalizer's output is a dense daily series — consecutive dates differ by
exactly one day across the whole span (every retained date is covered) —
and every output price is strictly positive. -/
theorem C4_normalizer_invariant (raw : List (ℤ × ℚ)) (hpos : ∃ p ∈ raw, 0 < p.2) :
    List.Chain' (fun p q : ℤ × ℚ => q.1 = p.1 + 1) (unpack_to_daily_df raw) ∧
    (∀ p ∈ unpack_to_daily_df raw, 0 < p.2) ∧
    (∀ p ∈ raw, 0 < p.2 → p.1 ∈ (unpack_to_daily_df raw).map Prod.fst) := by
  obtain ⟨p0, hp0, hp0pos⟩ := hpos
  have hp0c : p0 ∈ (raw.reverse).filter (fun p => 0 < p.2) := by
    rw [List.mem_filter, List.mem_reverse]
    exact ⟨hp0, by simpa using hp0pos⟩
  obtain ⟨x, xs, hxx⟩ :
      ∃ x xs, (raw.reverse).filter (fun p => 0 < p.2) = x :: xs := by
    cases hc : (raw.reverse).filter (fun p => 0 < p.2) with
    | nil => rw [hc] at hp0c; cases hp0c
    | cons x xs => exact ⟨x, xs, rfl⟩
  have hunp : unpack_to_daily_df raw
      = resample1D ((raw.reverse).filter (fun p => 0 < p.2)) := rfl
  refine ⟨?_, ?_, ?_⟩
  · rw [hunp, hxx]
    simp only [resample1D]
    exact chain_dense _ _ _
  · intro p hp
    rw [hunp] at hp
    obtain ⟨q, hq, hqe⟩ := resample1D_val_mem _ p hp
    rw [List.mem_filter] at hq
    have hqpos : 0 < q.2 := by simpa using hq.2
    exact hqe ▸ hqpos
  · intro p hp hppos
    have hpc : p ∈ (raw.reverse).filter (fun p => 0 < p.2) := by
      rw [List.mem_filter, List.mem_reverse]
      exact ⟨hp, by simpa using hppos⟩
    rw [hxx] at hpc
    have hlo := dateLoD_le x xs p hpc
    have hhi := dateHiD_ge x xs p hpc
    rw [hunp, hxx]
    simp only [resample1D, List.map_map, List.mem_map, List.mem_range, Function.comp_apply]
    refine ⟨(p.1 - dateLoD (x :: xs)).toNat, ?_, ?_⟩
    · omega
    · omega

/-- Witness for C4: the one-entry raw series `[(0, 1)]`. -/
theorem C4_normalizer_invariant_witness :
    (∃ p ∈ [((0 : ℤ), (1 : ℚ))], 0 < p.2) ∧
    (List.Chain' (fun p q : ℤ × ℚ => q.1 = p.1 + 1)
        (unpack_to_daily_df [((0 : ℤ), (1 : ℚ))]) ∧
      (∀ p ∈ unpack_to_daily_df [((0 : ℤ), (1 : ℚ))], 0 < p.2) ∧
      (∀ p ∈ [((0 : ℤ), (1 : ℚ))], 0 < p.2 →
        p.1 ∈ (unpack_to_daily_df [((0 : ℤ), (1 : ℚ))]).map Prod.fst)) :=
  ⟨⟨((0 : ℤ), (1 : ℚ)), by simp, by norm_num⟩,
   C4_normalizer_invariant [((0 : ℤ), (1 : ℚ))]
     ⟨((0 : ℤ), (1 : ℚ)), by simp, by norm_num⟩⟩

/-- Claim C2: For a raw series of 366 consecutive daily positive prices with
first price 100 and last price 110 (no gaps), running the pipeline with
Δ = 365 days produces exactly one value pair, `(100, 110)`, whose single
growth sample is exactly `exp (ln (110/100) / 1) - 1 = 1/10` in the
real-number model (the source computes `0.10` up to floating point). -/
theorem C2_concrete_scenario (a : ℤ) (g : ℕ → ℚ)
    (hpos : ∀ i, i ≤ 365 → 0 < g i) (h0 : g 0 = 100) (h365 : g 365 = 110) :
    (get_pairwise_values (unpack_to_daily_df (denseDF a 365 g)) ((365 : ℕ) : ℤ)).days
        = [a] ∧
    (get_pairwise_values (unpack_to_daily_df (denseDF a 365 g))
        ((365 : ℕ) : ℤ)).value_original = [100] ∧
    (get_pairwise_values (unpack_to_daily_df (denseDF a 365 g))
        ((365 : ℕ) : ℤ)).value_after_time_delta = [110] ∧
    (calculate_risk_histogram
        (get_pairwise_values (unpack_to_daily_df (denseDF a 365 g)) ((365 : ℕ) : ℤ))
        365).2 = [PF.fin (1 / 10)] := by
  have hu : unpack_to_daily_df (denseDF a 365 g) = denseDF a 365 g :=
    unpack_dense a 365 g hpos
  have hM := get_pairwise_values_dense a 365 g 365
  have hone : 365 + 1 - 365 = 1 := by norm_num
  rw [hone] at hM
  have hr1 : List.range 1 = [0] := rfl
  rw [hr1] at hM
  simp only [List.map_cons, List.map_nil] at hM
  refine ⟨?_, ?_, ?_, ?_⟩
  · rw [hu, hM]
    norm_num
  · rw [hu, hM]
    norm_num [h0]
  · rw [hu, hM]
    norm_num [h365]
  · rw [hu, hM, calc_rh_snd]
    simp only [List.zipWith_cons_cons, List.zipWith_nil_right, List.map_cons, List.map_nil]
    rw [show (0 + 365 : ℕ) = 365 from rfl, h0, h365]
    have hny1 : (((365 : ℚ) * 86400 : ℚ) : ℝ) / 365 / 24 / 60 / 60 = 1 := by norm_num
    rw [hny1]
    rw [growth_step_fin 100 110 1 (by norm_num) (by norm_num) one_ne_zero]
    have hq : ((110 : ℚ) : ℝ) / ((100 : ℚ) : ℝ) = 11 / 10 := by
      push_cast
      norm_num
    rw [div_one, hq, Real.exp_log (by norm_num : (0 : ℝ) < 11 / 10)]
    norm_num

/-- Witness for C2: the concrete series that is 100 on every day except
the last, which is 110. -/
theorem C2_concrete_scenario_witness :
    ((∀ i, i ≤ 365 → 0 < (fun i : ℕ => if i = 365 then (110 : ℚ) else 100) i) ∧
      (fun i : ℕ => if i = 365 then (110 : ℚ) else 100) 0 = 100 ∧
      (fun i : ℕ => if i = 365 then (110 : ℚ) else 100) 365 = 110) ∧
    ((get_pairwise_values (unpack_to_daily_df
          (denseDF 0 365 (fun i : ℕ => if i = 365 then (110 : ℚ) else 100)))
        ((365 : ℕ) : ℤ)).days = [0] ∧
      (get_pairwise_values (unpack_to_daily_df
          (denseDF 0 365 (fun i : ℕ => if i = 365 then (110 : ℚ) else 100)))
        ((365 : ℕ) : ℤ)).value_original = [100] ∧
      (get_pairwise_values (unpack_to_daily_df
          (denseDF 0 365 (fun i : ℕ => if i = 365 then (110 : ℚ) else 100)))
        ((365 : ℕ) : ℤ)).value_after_time_delta = [110] ∧
      (calculate_risk_histogram
          (get_pairwise_values (unpack_to_daily_df
            (denseDF 0 365 (fun i : ℕ => if i = 365 then (110 : ℚ) else 100)))
          ((365 : ℕ) : ℤ)) 365).2 = [PF.fin (1 / 10)]) := by
  constructor
  · refine ⟨?_, by norm_num, by norm_num⟩
    intro i _
    by_cases hi : i = 365
    · simp [hi]
    · simp [hi]
  · exact C2_concrete_scenario 0 (fun i : ℕ => if i = 365 then (110 : ℚ) else 100)
      (by intro i _; by_cases hi : i = 365 <;> simp [hi])
      (by norm_num) (by norm_num)

/-- Claim C3: For every non-empty normalized series and every whole-day offset
`k` strictly greater than the covered span, the Pair Aligner returns the
empty frame without raising; and whenever such a `k` is among the requested
offsets of an orchestration call over that series, the Orchestrator records
a (non-fatal) insufficient-span warning for `k`, still returns one histogram
per requested offset, and the histogram for `k` is empty. -/
theorem C3_insufficient_span (values_df : List (ℤ × ℚ)) (hne : values_df ≠ [])
    (k : ℤ) (hk : spanOf values_df < k) :
    get_pairwise_values values_df k = PairsDF.mk [] [] [] [] ∧
    ∀ (raw : List (ℤ × ℚ)) (resp : ProviderResponse) (tds : List ℤ),
      unpack_to_daily_df raw = values_df → k ∈ tds →
      ∃ warned hists,
        calculate_risk_histogram_as_function_of_time (some raw) resp tds
          = ⟨false, Except.ok (warned, hists)⟩ ∧
        k ∈ warned ∧
        hists.length = tds.length ∧
        ∀ j, j < tds.length → tds[j]! = k → hists[j]! = [] := by
  have hempty := gpv_empty_of_span values_df k hk
  refine ⟨hempty, ?_⟩
  intro raw resp tds hraw hktds
  refine ⟨tds.filter (fun td => spanOf (unpack_to_daily_df raw) < td),
    tds.map (fun td => (calculate_risk_histogram
      (get_pairwise_values (unpack_to_daily_df raw) td) ((td : ℤ) : ℚ)).2),
    rfl, ?_, ?_, ?_⟩
  · rw [hraw, List.mem_filter]
    exact ⟨hktds, by simpa using hk⟩
  · simp
  · intro j hj hjk
    rw [getElemD_map _ tds j hj, hjk, hraw, hempty]
    rfl

/-- Witness for C3: the one-day series `[(0, 1)]` with requested offset 5. -/
theorem C3_insufficient_span_witness :
    (([((0 : ℤ), (1 : ℚ))] : List (ℤ × ℚ)) ≠ [] ∧ spanOf [((0 : ℤ), (1 : ℚ))] < 5) ∧
    (get_pairwise_values [((0 : ℤ), (1 : ℚ))] 5 = PairsDF.mk [] [] [] [] ∧
      ∀ (raw : List (ℤ × ℚ)) (resp : ProviderResponse) (tds : List ℤ),
        unpack_to_daily_df raw = [((0 : ℤ), (1 : ℚ))] → (5 : ℤ) ∈ tds →
        ∃ warned hists,
          calculate_risk_histogram_as_function_of_time (some raw) resp tds
            = ⟨false, Except.ok (warned, hists)⟩ ∧
          (5 : ℤ) ∈ warned ∧
          hists.length = tds.length ∧
          ∀ j, j < tds.length → tds[j]! = 5 → hists[j]! = []) := by
  have h1 : ([((0 : ℤ), (1 : ℚ))] : List (ℤ × ℚ)) ≠ [] := by simp
  have h2 : spanOf [((0 : ℤ), (1 : ℚ))] < 5 := by decide
  exact ⟨⟨h1, h2⟩, C3_insufficient_span [((0 : ℤ), (1 : ℚ))] h1 5 h2⟩
